import Mathlib

/-!
Verification of the motion-planning core of `self-driving-car`.

The Rust source is shallowly embedded: `f32` scalars become `ℚ` where the
code is pure arithmetic and branching (`Car1D`, the table lookup, the
per-tick steering outputs), and `ℝ` where trigonometry is involved
(`SimpleArc` construction, which uses `angle_to`, i.e. `atan2`).
Fallible code (Rust panics / indexing) is embedded with `Option`, and
`Result` becomes `Except`.
-/

set_option maxHeartbeats 1000000

/-! ## Table lookup (`src/simulate/src/car1d.rs`, `linear_interpolate`)

`slice::binary_search_by` from the Rust standard library: returns `.ok i`
when the comparator answers `Equal` at `i`, and `.error l` with `l` the
insertion point otherwise.  Embedded as the classic half-open interval
search on `[left, right)`. -/

def bsGo (xs : List ℚ) (q : ℚ) : ℕ → ℕ → ℕ → Except ℕ ℕ
  | 0, left, _right => .error left
  | fuel + 1, left, right =>
    if left < right then
      let mid := left + (right - left) / 2
      let v := xs.getD mid 0
      if v < q then bsGo xs q fuel (mid + 1) right
      else if q < v then bsGo xs q fuel left mid
      else .ok mid
    else .error left

/-- The loop halves `right - left` each pass, so `xs.length` iterations
always suffice; the fuel argument of `bsGo` never runs out. -/
def binary_search_by (xs : List ℚ) (q : ℚ) : Except ℕ ℕ :=
  bsGo xs q xs.length 0 xs.length

/-- `linear_interpolate(xs, ys, x)` from `car1d.rs`: despite its name it
returns the `y` at the index found for `x` (`Ok(i) => i`, `Err(0) => 0`,
`Err(i) => i - 1`) with no interpolation.  The Rust `ys[index]` panics when
out of bounds; here that is `none`. -/
def linear_interpolate (xs ys : List ℚ) (x : ℚ) : Option ℚ :=
  let index : ℕ :=
    match binary_search_by xs x with
    | .ok i => i
    | .error 0 => 0
    | .error l => l - 1
  ys[index]?

/-! ## Car1D (`src/simulate/src/car1d.rs`) -/

/-- `rl::CAR_NORMAL_SPEED`: max speed reachable on throttle alone. -/
def CAR_NORMAL_SPEED : ℚ := 1410

/-- `rl::BOOST_DEPLETION`: boost depletion per second, `100.0 / 3.0`. -/
def BOOST_DEPLETION : ℚ := 100 / 3

/-- The six lookup-table regimes used by `Car1D`.  The concrete arrays are
generated at build time from CSV data that is not part of the sources; the
simulation is parametrised over them. -/
structure Tables where
  COAST_TIME : List ℚ
  COAST_CAR_VEL_Y : List ℚ
  COAST_TIME_REV : List ℚ
  COAST_CAR_VEL_Y_REV : List ℚ
  THROTTLE_TIME : List ℚ
  THROTTLE_CAR_VEL_Y : List ℚ
  BOOST_TIME : List ℚ
  BOOST_CAR_VEL_Y : List ℚ

structure Car1D where
  time : ℚ
  loc : ℚ
  vel : ℚ
  boost : ℚ
deriving DecidableEq

/-- `Car1D::new(speed)`. -/
def Car1D.new (speed : ℚ) : Car1D :=
  { time := 0, loc := 0, vel := speed, boost := 100 }

/-- `Car1D::compute_new_vel`.  `none` models the `panic!("Unsupported
inputs")` arm and any out-of-bounds table indexing. -/
def Car1D.compute_new_vel (T : Tables) (c : Car1D) (dt throttle : ℚ)
    (boost : Bool) : Option ℚ :=
  if c.vel ≥ CAR_NORMAL_SPEED ∧ throttle = 1 then
    some c.vel
  else if boost = false ∧ throttle = 0 then
    (linear_interpolate T.COAST_CAR_VEL_Y_REV T.COAST_TIME_REV c.vel).bind
      fun old_time =>
        linear_interpolate T.COAST_TIME T.COAST_CAR_VEL_Y (old_time + dt)
  else if boost = false ∧ throttle = 1 then
    (linear_interpolate T.THROTTLE_CAR_VEL_Y T.THROTTLE_TIME c.vel).bind
      fun old_time =>
        linear_interpolate T.THROTTLE_TIME T.THROTTLE_CAR_VEL_Y (old_time + dt)
  else if boost = true ∧ throttle = 1 then
    (linear_interpolate T.BOOST_CAR_VEL_Y T.BOOST_TIME c.vel).bind
      fun old_time =>
        linear_interpolate T.BOOST_TIME T.BOOST_CAR_VEL_Y (old_time + dt)
  else
    none

/-- `Car1D::step(dt, throttle, boost)`: the boost request is downgraded
when the reserve is empty, the new velocity is computed, then time, the
distance accumulator (using the pre-step velocity), the velocity and the
boost reserve are updated in that order. -/
def Car1D.step (T : Tables) (c : Car1D) (dt throttle : ℚ) (boost : Bool) :
    Option Car1D :=
  let boost := boost && decide (c.boost > 0)
  (c.compute_new_vel T dt throttle boost).map fun new_vel =>
    { time := c.time + dt
      loc := c.loc + c.vel * dt
      vel := new_vel
      boost := if boost then c.boost - BOOST_DEPLETION * dt else c.boost }

/-- `Car1D::step_rev(dt, throttle, boost)`: same as `step` except the new
velocity is looked up with `-dt`, and `self.vel` is assigned *before*
`self.loc += self.vel * dt`, so the distance accumulator advances by the
new velocity. -/
def Car1D.step_rev (T : Tables) (c : Car1D) (dt throttle : ℚ) (boost : Bool) :
    Option Car1D :=
  let boost := boost && decide (c.boost > 0)
  (c.compute_new_vel T (-dt) throttle boost).map fun new_vel =>
    { time := c.time + dt
      vel := new_vel
      loc := c.loc + new_vel * dt
      boost := if boost then c.boost - BOOST_DEPLETION * dt else c.boost }

/-! ## Per-tick control commands

`common::halfway_house::PlayerInput` (all fields default to zero/false). -/

structure PlayerInput where
  Throttle : ℚ := 0
  Steer : ℚ := 0
  Pitch : ℚ := 0
  Yaw : ℚ := 0
  Roll : ℚ := 0
  Jump : Bool := false
  Boost : Bool := false
  Handbrake : Bool := false
deriving DecidableEq

/-- `drive_towards` (`src/brain/src/behavior/movement/drive_towards.rs`),
as a function of the quantities it reads from the context: the yaw
difference to the target and the handbrake cutoff angle computed from the
speed (both produced by code outside this crate).  The emitted command is
`Throttle: 1.0, Steer: yaw_diff.max(-1.0).min(1.0) * 2.0,
Handbrake: yaw_diff.abs() >= handbrake_cutoff`. -/
def drive_towards (yaw_diff handbrake_cutoff : ℚ) : PlayerInput :=
  { Throttle := 1
    Steer := min (max yaw_diff (-1)) 1 * 2
    Handbrake := decide (|yaw_diff| ≥ handbrake_cutoff) }

/-- The command emitted by `SimpleArcRunner::execute_old`
(`src/brain/src/routing/segments/simple_arc.rs`) on the `Yield` path, as a
function of the angle from the car's forward axis to the lookahead point:
`Throttle: 1.0, Steer: angle.max(-1.0).min(1.0)`. -/
def SimpleArcRunner.yield_input (angle : ℚ) : PlayerInput :=
  { Throttle := 1
    Steer := min (max angle (-1)) 1 }

/-! ## JumpAndDodge (`src/brain/src/routing/segments/jump_and_dodge.rs`) -/

/-- `CarState` (3D kinematic snapshot), with only the fields the embedded
code reads. -/
structure CarState where
  loc : ℚ × ℚ × ℚ
  rot : ℚ
  vel : ℚ × ℚ × ℚ
  boost : ℚ

def JUMP_TIME : ℚ := 6 / 120

def WAIT_TIME : ℚ := 6 / 120

/-- `FLOAT_TIME`, the literal `1.333333`. -/
def FLOAT_TIME : ℚ := 1333333 / 1000000

/-- `JumpAndDodge` plan: a start state and a planar dodge direction
(a `UnitComplex`, kept as its `(cos, sin)` pair). -/
structure JumpAndDodge where
  start : CarState
  direction : ℚ × ℚ

/-- `JumpAndDodge::duration()`: `JUMP_TIME + WAIT_TIME + FLOAT_TIME`. -/
def JumpAndDodge.duration (_p : JumpAndDodge) : ℚ :=
  JUMP_TIME + WAIT_TIME + FLOAT_TIME

/-! ## SimpleArc (`src/brain/src/routing/segments/simple_arc.rs`)

The construction uses `Vector2::norm` and the signed-angle function
`angle_to` from the `common` crate (not among the sources).  Modelled from
the spec: `angle_to(a, b)` is the signed angle between `a` and `b`, i.e.
the argument of the complex number `b * conj a`, lying in `(-π, π]`. -/

def toC (v : ℝ × ℝ) : ℂ := ⟨v.1, v.2⟩

/-- Modelled from the spec: the signed angle from vector `a` to vector
`b`, in `(-π, π]` (the `common` crate is not among the sources). -/
noncomputable def angle_to (a b : ℝ × ℝ) : ℝ :=
  Complex.arg (toC b * (starRingEnd ℂ) (toC a))

/-- `Vector2::norm`. -/
noncomputable def norm2 (v : ℝ × ℝ) : ℝ :=
  Real.sqrt (v.1 * v.1 + v.2 * v.2)

inductive SimpleArcError where
  | VelocityTooLow
  | WrongGeometry
deriving DecidableEq

structure SimpleArc where
  center : ℝ × ℝ
  radius : ℝ
  start_loc : ℝ × ℝ
  start_vel : ℝ × ℝ
  start_boost : ℝ
  sweep : ℝ

open Real in
/-- `SimpleArc::new`: rejects a too-slow start velocity, then unequal
radii, then derives the direction of travel from the sign of
`start_vel.angle_to(start_loc - center)` and adjusts the raw sweep by a
full turn so its sign matches that direction. -/
noncomputable def SimpleArc.new (center : ℝ × ℝ) (radius : ℝ)
    (start_loc : ℝ × ℝ) (start_vel : ℝ × ℝ) (start_boost : ℝ)
    (end_loc : ℝ × ℝ) : Except SimpleArcError SimpleArc :=
  if norm2 start_vel < 100 then
    .error .VelocityTooLow
  else if |norm2 (start_loc - center) - norm2 (end_loc - center)| ≥ 1 then
    .error .WrongGeometry
  else
    let clockwise := angle_to start_vel (start_loc - center) < 0
    let sweep := angle_to (start_loc - center) (end_loc - center)
    let sweep :=
      if clockwise ∧ sweep < 0 then sweep + 2 * π
      else if ¬clockwise ∧ sweep ≥ 0 then sweep - 2 * π
      else sweep
    .ok { center := center, radius := radius, start_loc := start_loc,
          start_vel := start_vel, start_boost := start_boost, sweep := sweep }

/-- `SimpleArc::duration()`: `radius * sweep.abs() / start_vel.norm()`. -/
noncomputable def SimpleArc.duration (a : SimpleArc) : ℝ :=
  a.radius * |a.sweep| / norm2 a.start_vel

/-! ## Auxiliary definitions for the statements -/

/-- A concrete, spec-conformant table set (each regime is a pair of
same-length arrays, sorted ascending by time, with the coast pair also
given reversed), used to instantiate theorems at concrete inputs. -/
def T0 : Tables :=
  { COAST_TIME := [0, 1]
    COAST_CAR_VEL_Y := [1000, 0]
    COAST_TIME_REV := [1, 0]
    COAST_CAR_VEL_Y_REV := [0, 1000]
    THROTTLE_TIME := [0, 1]
    THROTTLE_CAR_VEL_Y := [0, 1000]
    BOOST_TIME := [0, 1]
    BOOST_CAR_VEL_Y := [0, 2000] }

/-- The shape every generated table set has: per regime, the paired
arrays are nonempty and of equal length. -/
def Tables.WellFormed (T : Tables) : Prop :=
  T.COAST_TIME ≠ [] ∧ T.COAST_CAR_VEL_Y ≠ [] ∧ T.COAST_TIME_REV ≠ [] ∧
  T.COAST_CAR_VEL_Y_REV ≠ [] ∧ T.THROTTLE_TIME ≠ [] ∧
  T.THROTTLE_CAR_VEL_Y ≠ [] ∧ T.BOOST_TIME ≠ [] ∧ T.BOOST_CAR_VEL_Y ≠ [] ∧
  T.COAST_CAR_VEL_Y.length = T.COAST_TIME.length ∧
  T.COAST_TIME_REV.length = T.COAST_TIME.length ∧
  T.COAST_CAR_VEL_Y_REV.length = T.COAST_TIME.length ∧
  T.THROTTLE_CAR_VEL_Y.length = T.THROTTLE_TIME.length ∧
  T.BOOST_CAR_VEL_Y.length = T.BOOST_TIME.length

instance (T : Tables) : Decidable T.WellFormed := by
  unfold Tables.WellFormed; infer_instance

/-- The input modes on which `Car1D::compute_new_vel` hits the
`panic!` arm: no effective boost with a throttle other than `0.0` or
`1.0`, or effective boost with a throttle other than `1.0`. -/
def unsupported_inputs (throttle : ℚ) (boost : Bool) : Prop :=
  (boost = false ∧ throttle ≠ 0 ∧ throttle ≠ 1) ∨
  (boost = true ∧ throttle ≠ 1)

instance (throttle : ℚ) (boost : Bool) :
    Decidable (unsupported_inputs throttle boost) := by
  unfold unsupported_inputs; infer_instance

/-! ## Theorems -/

/-- C8: every `JumpAndDodge` plan, whatever its start state and dodge
direction, has `duration()` equal to the constant
`6/120 + 6/120 + 1.333333` seconds. -/
theorem jumpAndDodge_duration_constant (p : JumpAndDodge) :
    p.duration = 6 / 120 + 6 / 120 + 1333333 / 1000000 := rfl

/-- C5 counterexample: `drive_towards` clamps the yaw difference *before*
multiplying by 2, so with a yaw difference of 1 the emitted steer is 2,
outside `[-1, 1]` — the claim that every emitted steer lies in `[-1, 1]`
is false. -/
theorem drive_towards_steer_exceeds_one :
    (drive_towards 1 1).Steer = 2 ∧ ¬(drive_towards 1 1).Steer ≤ 1 := by
  constructor <;> norm_num [drive_towards]

/-- C5 amended: the arc runner's steer is clamped to `[-1, 1]`, but
`drive_towards` emits twice the clamped yaw difference, which lies in
`[-2, 2]` and is within `[-1, 1]` only when the yaw difference has
absolute value at most `1/2`. -/
theorem steer_clamp_bounds (angle yaw_diff cutoff : ℚ) :
    -1 ≤ (SimpleArcRunner.yield_input angle).Steer ∧
    (SimpleArcRunner.yield_input angle).Steer ≤ 1 ∧
    -2 ≤ (drive_towards yaw_diff cutoff).Steer ∧
    (drive_towards yaw_diff cutoff).Steer ≤ 2 ∧
    (|yaw_diff| ≤ 1 / 2 → |(drive_towards yaw_diff cutoff).Steer| ≤ 1) := by
  have h1 : -1 ≤ min (max yaw_diff (-1)) 1 :=
    le_min (le_max_right _ _) (by norm_num)
  have h2 : min (max yaw_diff (-1)) 1 ≤ 1 := min_le_right _ _
  refine ⟨le_min (le_max_right _ _) (by norm_num), min_le_right _ _,
    ?_, ?_, ?_⟩
  · simp only [drive_towards]; linarith
  · simp only [drive_towards]; linarith
  · intro h
    rw [abs_le] at h
    simp only [drive_towards]
    rw [max_eq_left (by linarith), min_eq_left (by linarith), abs_le]
    constructor <;> linarith

/-- C5 amended, witness: at yaw difference `1/4` the `drive_towards`
steer is within `[-1, 1]`. -/
theorem steer_clamp_bounds_witness :
    |(1 : ℚ) / 4| ≤ 1 / 2 ∧ |(drive_towards (1 / 4) 1).Steer| ≤ 1 := by
  have h : |(1 : ℚ) / 4| ≤ 1 / 2 := by
    rw [abs_le]; constructor <;> norm_num
  exact ⟨h, (steer_clamp_bounds 5 (1 / 4) 1).2.2.2.2 h⟩

/-- C3: stepping with full throttle from a speed at or above
`CAR_NORMAL_SPEED` (1410) leaves the speed exactly unchanged for either
boost request, while the boost reserve decreases by
`BOOST_DEPLETION * dt` exactly when boost was requested with a positive
reserve, and is unchanged otherwise. -/
theorem step_saturated (T : Tables) (c : Car1D) (dt : ℚ) (wb : Bool)
    (h : CAR_NORMAL_SPEED ≤ c.vel) :
    Car1D.step T c dt 1 wb = some
      { time := c.time + dt
        loc := c.loc + c.vel * dt
        vel := c.vel
        boost := if wb = true ∧ 0 < c.boost
          then c.boost - BOOST_DEPLETION * dt else c.boost } := by
  have hbf : (if (wb && decide (0 < c.boost)) = true
      then c.boost - BOOST_DEPLETION * dt else c.boost) =
      (if wb = true ∧ 0 < c.boost
      then c.boost - BOOST_DEPLETION * dt else c.boost) := by
    by_cases hw : wb = true <;> by_cases hb : (0 : ℚ) < c.boost <;>
      simp [hw, hb]
  simp only [Car1D.step, Car1D.compute_new_vel, and_true, eq_self_iff_true]
  rw [if_pos h]
  simp only [Option.map_some']
  rw [hbf]

/-- C3 witness: from speed 9999 with full throttle and boost requested,
the speed stays 9999 and the reserve drops by `BOOST_DEPLETION / 60`. -/
theorem step_saturated_witness :
    CAR_NORMAL_SPEED ≤ ((⟨0, 0, 9999, 100⟩ : Car1D)).vel ∧
    Car1D.step T0 ⟨0, 0, 9999, 100⟩ (1 / 60) 1 true =
      some ⟨0 + 1 / 60, 0 + 9999 * (1 / 60), 9999,
        100 - BOOST_DEPLETION * (1 / 60)⟩ := by
  have hv : CAR_NORMAL_SPEED ≤ ((⟨0, 0, 9999, 100⟩ : Car1D)).vel := by
    norm_num [CAR_NORMAL_SPEED]
  refine ⟨hv, ?_⟩
  rw [step_saturated T0 ⟨0, 0, 9999, 100⟩ (1 / 60) true hv]
  norm_num

/-- C10: whenever a `step` or `step_rev` call returns, the boost reserve
of the result is the old reserve minus `BOOST_DEPLETION * dt` exactly
when boost was requested with a strictly positive reserve (with no
clamping at zero), and is exactly the old reserve otherwise. -/
theorem step_boost_depletion (T : Tables) (c : Car1D) (dt throttle : ℚ)
    (wb : Bool) (c2 : Car1D)
    (h : Car1D.step T c dt throttle wb = some c2 ∨
         Car1D.step_rev T c dt throttle wb = some c2) :
    c2.boost = if wb = true ∧ 0 < c.boost
      then c.boost - BOOST_DEPLETION * dt else c.boost := by
  rcases h with h | h
  · simp only [Car1D.step, Option.map_eq_some'] at h
    obtain ⟨v, _, rfl⟩ := h
    by_cases hw : wb <;> by_cases hb : (0 : ℚ) < c.boost <;> simp [hw, hb]
  · simp only [Car1D.step_rev, Option.map_eq_some'] at h
    obtain ⟨v, _, rfl⟩ := h
    by_cases hw : wb <;> by_cases hb : (0 : ℚ) < c.boost <;> simp [hw, hb]

/-- C10 witness: one boosting step from a reserve of 1 with `dt = 1`
depletes by `100/3` and leaves the reserve strictly negative. -/
theorem step_boost_depletion_witness :
    Car1D.step T0 ⟨0, 0, 500, 1⟩ 1 1 true = some ⟨1, 500, 2000, 1 - 100 / 3⟩ ∧
    ((⟨1, 500, 2000, 1 - 100 / 3⟩ : Car1D)).boost =
      (if true = true ∧ 0 < ((⟨0, 0, 500, 1⟩ : Car1D)).boost
       then ((⟨0, 0, 500, 1⟩ : Car1D)).boost - BOOST_DEPLETION * 1
       else ((⟨0, 0, 500, 1⟩ : Car1D)).boost) ∧
    ((⟨1, 500, 2000, 1 - 100 / 3⟩ : Car1D)).boost < 0 := by
  have hstep : Car1D.step T0 ⟨0, 0, 500, 1⟩ 1 1 true =
      some ⟨1, 500, 2000, 1 - 100 / 3⟩ := by
    norm_num [Car1D.step, Car1D.compute_new_vel, linear_interpolate,
      binary_search_by, bsGo, T0, CAR_NORMAL_SPEED, BOOST_DEPLETION]
  exact ⟨hstep,
    step_boost_depletion T0 ⟨0, 0, 500, 1⟩ 1 1 true _ (Or.inl hstep),
    by norm_num⟩

/-- C1 counterexample: `step_rev` assigns the new velocity before adding
`vel * dt` to the distance accumulator, so from speed 500 with the
synthetic tables `T0` the new velocity is 0 and the distance advances by
0, not by the pre-step speed times `dt` (500). -/
theorem step_rev_distance_counterexample :
    Car1D.step_rev T0 ⟨0, 0, 500, 100⟩ 1 1 false = some ⟨1, 0, 0, 100⟩ ∧
    ((⟨1, 0, 0, 100⟩ : Car1D)).loc ≠
      ((⟨0, 0, 500, 100⟩ : Car1D)).loc +
        ((⟨0, 0, 500, 100⟩ : Car1D)).vel * 1 := by
  constructor
  · norm_num [Car1D.step_rev, Car1D.compute_new_vel, linear_interpolate,
      binary_search_by, bsGo, T0, CAR_NORMAL_SPEED, BOOST_DEPLETION]
  · norm_num

/-- C1 amended: in every returning `step` call the distance accumulator
advances by the pre-step speed times `dt`, while in every returning
`step_rev` call it advances by the newly computed (post-step) speed times
`dt`; elapsed time advances by `dt` in both. -/
theorem step_distance_update (T : Tables) (c : Car1D) (dt throttle : ℚ)
    (wb : Bool) (c2 : Car1D) :
    (Car1D.step T c dt throttle wb = some c2 →
       c2.loc = c.loc + c.vel * dt ∧ c2.time = c.time + dt) ∧
    (Car1D.step_rev T c dt throttle wb = some c2 →
       c2.loc = c.loc + c2.vel * dt ∧ c2.time = c.time + dt) := by
  constructor
  · intro h
    simp only [Car1D.step, Option.map_eq_some'] at h
    obtain ⟨v, _, rfl⟩ := h
    exact ⟨rfl, rfl⟩
  · intro h
    simp only [Car1D.step_rev, Option.map_eq_some'] at h
    obtain ⟨v, _, rfl⟩ := h
    exact ⟨rfl, rfl⟩

/-- C1 amended, witness: the concrete `step_rev` call of the
counterexample advances the distance by the post-step speed times `dt`. -/
theorem step_distance_update_witness :
    Car1D.step_rev T0 ⟨0, 0, 500, 100⟩ 1 1 false = some ⟨1, 0, 0, 100⟩ ∧
    ((⟨1, 0, 0, 100⟩ : Car1D)).loc =
      ((⟨0, 0, 500, 100⟩ : Car1D)).loc +
        ((⟨1, 0, 0, 100⟩ : Car1D)).vel * 1 := by
  have h : Car1D.step_rev T0 ⟨0, 0, 500, 100⟩ 1 1 false =
      some ⟨1, 0, 0, 100⟩ := by
    norm_num [Car1D.step_rev, Car1D.compute_new_vel, linear_interpolate,
      binary_search_by, bsGo, T0, CAR_NORMAL_SPEED, BOOST_DEPLETION]
  exact ⟨h,
    ((step_distance_update T0 ⟨0, 0, 500, 100⟩ 1 1 false
      ⟨1, 0, 0, 100⟩).2 h).1⟩

/-- Bounds on the index returned by the embedded binary search: a hit lies
in `[left, right)` and an insertion point in `[left, right]`. -/
theorem bsGo_index_bounds (xs : List ℚ) (q : ℚ) :
    ∀ fuel left right, left ≤ right →
    (∀ i, bsGo xs q fuel left right = .ok i → left ≤ i ∧ i < right) ∧
    (∀ l, bsGo xs q fuel left right = .error l → left ≤ l ∧ l ≤ right) := by
  intro fuel
  induction fuel with
  | zero =>
    intro left right hlr
    constructor
    · intro i hi; simp [bsGo] at hi
    · intro l hl
      simp only [bsGo, Except.error.injEq] at hl
      omega
  | succ fuel ih =>
    intro left right hlr
    constructor
    · intro i hi
      simp only [bsGo] at hi
      split_ifs at hi with hc hv1 hv2
      · have h2 := (ih (left + (right - left) / 2 + 1) right (by omega)).1 i hi
        omega
      · have h2 := (ih left (left + (right - left) / 2) (by omega)).1 i hi
        omega
      · simp only [Except.ok.injEq] at hi
        omega
    · intro l hl
      simp only [bsGo] at hl
      split_ifs at hl with hc hv1 hv2
      · have h2 := (ih (left + (right - left) / 2 + 1) right (by omega)).2 l hl
        omega
      · have h2 := (ih left (left + (right - left) / 2) (by omega)).2 l hl
        omega
      · simp only [Except.error.injEq] at hl
        omega

/-- On a nonempty `xs` with `ys` at least as long, the lookup never
fails: the computed index is always in range. -/
theorem linear_interpolate_isSome (xs ys : List ℚ) (q : ℚ) (hne : xs ≠ [])
    (hlen : xs.length ≤ ys.length) :
    ∃ y, linear_interpolate xs ys q = some y := by
  have hpos : 0 < xs.length := List.length_pos.mpr hne
  have hb := bsGo_index_bounds xs q xs.length 0 xs.length (Nat.zero_le _)
  simp only [linear_interpolate]
  cases hbs : binary_search_by xs q with
  | ok i =>
    have hi := hb.1 i hbs
    have hiy : i < ys.length := lt_of_lt_of_le hi.2 hlen
    exact ⟨ys.getD i 0,
      by rw [List.getElem?_eq_getElem hiy, List.getD_eq_getElem ys 0 hiy]⟩
  | error l =>
    have hl := hb.2 l hbs
    rcases l with _ | m
    · have h0 : 0 < ys.length := lt_of_lt_of_le hpos hlen
      exact ⟨ys.getD 0 0,
        by rw [List.getElem?_eq_getElem h0, List.getD_eq_getElem ys 0 h0]⟩
    · have hm : m + 1 - 1 < ys.length := by omega
      exact ⟨ys.getD (m + 1 - 1) 0, by
        show ys[m + 1 - 1]? = some (ys.getD (m + 1 - 1) 0)
        rw [List.getElem?_eq_getElem hm, List.getD_eq_getElem ys 0 hm]⟩

/-- In the saturation case `compute_new_vel` returns the old speed
without consulting any table. -/
theorem compute_new_vel_saturated (T : Tables) (c : Car1D) (dt : ℚ)
    (b : Bool) (h : CAR_NORMAL_SPEED ≤ c.vel) :
    c.compute_new_vel T dt 1 b = some c.vel := by
  simp only [Car1D.compute_new_vel, and_true, eq_self_iff_true]
  rw [if_pos h]

/-- On well-formed tables, `compute_new_vel` fails exactly on the
unsupported input modes. -/
theorem compute_new_vel_none_iff (T : Tables) (c : Car1D) (dt throttle : ℚ)
    (b : Bool) (hT : T.WellFormed) :
    (c.compute_new_vel T dt throttle b = none ↔
      unsupported_inputs throttle b) := by
  obtain ⟨hc1, hc2, hc3, hc4, ht1, ht2, hb1, hb2, hlc1, hlc2, hlc3, hlt, hlb⟩ := hT
  unfold Car1D.compute_new_vel
  split_ifs with h1 h2 h3 h4
  · simp only [unsupported_inputs, h1.2]
    simp
  · obtain ⟨y1, hy1⟩ := linear_interpolate_isSome T.COAST_CAR_VEL_Y_REV
      T.COAST_TIME_REV c.vel hc4 (by omega)
    obtain ⟨y2, hy2⟩ := linear_interpolate_isSome T.COAST_TIME
      T.COAST_CAR_VEL_Y (y1 + dt) hc1 (by omega)
    rw [hy1, Option.some_bind, hy2]
    simp only [unsupported_inputs, h2.1, h2.2]
    simp
  · obtain ⟨y1, hy1⟩ := linear_interpolate_isSome T.THROTTLE_CAR_VEL_Y
      T.THROTTLE_TIME c.vel (by
        intro hnil
        rw [hnil] at hlt
        simp at hlt
        exact absurd (List.length_eq_zero.mp hlt.symm) ht1) (by omega)
    obtain ⟨y2, hy2⟩ := linear_interpolate_isSome T.THROTTLE_TIME
      T.THROTTLE_CAR_VEL_Y (y1 + dt) ht1 (by omega)
    rw [hy1, Option.some_bind, hy2]
    simp only [unsupported_inputs, h3.1, h3.2]
    simp
  · obtain ⟨y1, hy1⟩ := linear_interpolate_isSome T.BOOST_CAR_VEL_Y
      T.BOOST_TIME c.vel (by
        intro hnil
        rw [hnil] at hlb
        simp at hlb
        exact absurd (List.length_eq_zero.mp hlb.symm) hb1) (by omega)
    obtain ⟨y2, hy2⟩ := linear_interpolate_isSome T.BOOST_TIME
      T.BOOST_CAR_VEL_Y (y1 + dt) hb1 (by omega)
    rw [hy1, Option.some_bind, hy2]
    simp only [unsupported_inputs, h4.1, h4.2]
    simp
  · simp only [unsupported_inputs]
    constructor
    · intro _
      push_neg at h2 h3 h4
      cases b with
      | false => exact Or.inl ⟨rfl, h2 rfl, h3 rfl⟩
      | true => exact Or.inr ⟨rfl, h4 rfl⟩
    · intro _
      trivial

/-- C9: on well-formed tables, `step` and `step_rev` hit the
`panic!("Unsupported inputs")` arm exactly when the effective input mode
is unsupported — throttle not exactly 0 or 1 without effective boost, or
effective boost (requested with a positive reserve) with throttle not
exactly 1 — while the saturation case (speed at or above 1410 with
throttle exactly 1) always returns, with the speed unchanged, without
reaching the mode dispatch. -/
theorem step_unsupported_panic (T : Tables) (c : Car1D) (dt throttle : ℚ)
    (wb : Bool) (hT : T.WellFormed) :
    (Car1D.step T c dt throttle wb = none ↔
      unsupported_inputs throttle (wb && decide (0 < c.boost))) ∧
    (Car1D.step_rev T c dt throttle wb = none ↔
      unsupported_inputs throttle (wb && decide (0 < c.boost))) ∧
    (CAR_NORMAL_SPEED ≤ c.vel ∧ throttle = 1 →
      Car1D.step T c dt throttle wb ≠ none ∧
      Car1D.step_rev T c dt throttle wb ≠ none ∧
      (∀ c2, Car1D.step T c dt throttle wb = some c2 → c2.vel = c.vel) ∧
      (∀ c2, Car1D.step_rev T c dt throttle wb = some c2 → c2.vel = c.vel)) := by
  refine ⟨?_, ?_, ?_⟩
  · simp only [Car1D.step, Option.map_eq_none']
    exact compute_new_vel_none_iff T c dt throttle _ hT
  · simp only [Car1D.step_rev, Option.map_eq_none']
    exact compute_new_vel_none_iff T c (-dt) throttle _ hT
  · rintro ⟨hv, rfl⟩
    have hs := compute_new_vel_saturated T c dt (wb && decide (0 < c.boost)) hv
    have hs2 := compute_new_vel_saturated T c (-dt) (wb && decide (0 < c.boost)) hv
    refine ⟨?_, ?_, ?_, ?_⟩
    · simp [Car1D.step, hs]
    · simp [Car1D.step_rev, hs2]
    · intro c2 h
      simp only [Car1D.step, hs, Option.map_some', Option.some.injEq] at h
      rw [← h]
    · intro c2 h
      simp only [Car1D.step_rev, hs2, Option.map_some', Option.some.injEq] at h
      rw [← h]

/-- C9 witness: with throttle 1/2 and no boost request, the concrete
step call returns `none` (the panic arm). -/
theorem step_unsupported_panic_witness :
    T0.WellFormed ∧
    (Car1D.step T0 ⟨0, 0, 500, 100⟩ 1 (1 / 2) false = none ↔
      unsupported_inputs (1 / 2)
        (false && decide (0 < ((⟨0, 0, 500, 100⟩ : Car1D)).boost))) := by
  have hT : T0.WellFormed := by decide
  exact ⟨hT, (step_unsupported_panic T0 ⟨0, 0, 500, 100⟩ 1 (1 / 2) false hT).1⟩

/-- Strictly sorted lists are strictly monotone under `getD` on in-range
indices. -/
theorem sorted_getD_lt (xs : List ℚ) (hs : List.Sorted (· < ·) xs) {i j : ℕ}
    (hij : i < j) (hj : j < xs.length) : xs.getD i 0 < xs.getD j 0 := by
  rw [List.getD_eq_getElem xs 0 (lt_trans hij hj), List.getD_eq_getElem xs 0 hj]
  exact List.pairwise_iff_get.mp hs ⟨i, lt_trans hij hj⟩ ⟨j, hj⟩ hij

/-- Full functional specification of the embedded binary search on a
strictly sorted slice: a hit returns an index holding exactly `q`, and a
miss returns the insertion point, i.e. everything below it is `< q` and
everything at or above it is `> q`. -/
theorem bsGo_sorted_spec (xs : List ℚ) (q : ℚ)
    (hs : List.Sorted (· < ·) xs) :
    ∀ fuel left right, right - left ≤ fuel → left ≤ right →
    right ≤ xs.length →
    (∀ k, k < left → xs.getD k 0 < q) →
    (∀ k, right ≤ k → k < xs.length → q < xs.getD k 0) →
    (∀ i, bsGo xs q fuel left right = .ok i →
      i < xs.length ∧ xs.getD i 0 = q) ∧
    (∀ l, bsGo xs q fuel left right = .error l →
      l ≤ xs.length ∧ (∀ k, k < l → xs.getD k 0 < q) ∧
      (∀ k, l ≤ k → k < xs.length → q < xs.getD k 0)) := by
  intro fuel
  induction fuel with
  | zero =>
    intro left right hfuel hlr hrl hbelow habove
    constructor
    · intro i hi; simp [bsGo] at hi
    · intro l hl
      simp only [bsGo, Except.error.injEq] at hl
      subst hl
      exact ⟨by omega, hbelow, fun k hk1 hk2 => habove k (by omega) hk2⟩
  | succ fuel ih =>
    intro left right hfuel hlr hrl hbelow habove
    constructor
    · intro i hi
      simp only [bsGo] at hi
      split_ifs at hi with hc hv1 hv2
      · refine (ih (left + (right - left) / 2 + 1) right (by omega)
          (by omega) hrl ?_ habove).1 i hi
        intro k hk
        rcases Nat.lt_or_ge k left with h | h
        · exact hbelow k h
        · have hkmid : k ≤ left + (right - left) / 2 := by omega
          have hmidlen : left + (right - left) / 2 < xs.length := by omega
          rcases Nat.lt_or_eq_of_le hkmid with h2 | h2
          · exact lt_trans (sorted_getD_lt xs hs h2 hmidlen) hv1
          · rw [h2]; exact hv1
      · refine (ih left (left + (right - left) / 2) (by omega)
          (by omega) (by omega) hbelow ?_).1 i hi
        intro k hk1 hk2
        rcases Nat.eq_or_lt_of_le hk1 with h2 | h2
        · rw [← h2]; exact hv2
        · exact lt_trans hv2 (sorted_getD_lt xs hs h2 hk2)
      · simp only [Except.ok.injEq] at hi
        subst hi
        have hmidlen : left + (right - left) / 2 < xs.length := by omega
        exact ⟨hmidlen, le_antisymm (not_lt.mp hv2) (not_lt.mp hv1)⟩
    · intro l hl
      simp only [bsGo] at hl
      split_ifs at hl with hc hv1 hv2
      · refine (ih (left + (right - left) / 2 + 1) right (by omega)
          (by omega) hrl ?_ habove).2 l hl
        intro k hk
        rcases Nat.lt_or_ge k left with h | h
        · exact hbelow k h
        · have hkmid : k ≤ left + (right - left) / 2 := by omega
          have hmidlen : left + (right - left) / 2 < xs.length := by omega
          rcases Nat.lt_or_eq_of_le hkmid with h2 | h2
          · exact lt_trans (sorted_getD_lt xs hs h2 hmidlen) hv1
          · rw [h2]; exact hv1
      · refine (ih left (left + (right - left) / 2) (by omega)
          (by omega) (by omega) hbelow ?_).2 l hl
        intro k hk1 hk2
        rcases Nat.eq_or_lt_of_le hk1 with h2 | h2
        · rw [← h2]; exact hv2
        · exact lt_trans hv2 (sorted_getD_lt xs hs h2 hk2)
      · simp only [Except.error.injEq] at hl
        subst hl
        exact ⟨by omega, hbelow, fun k hk1 hk2 => habove k (by omega) hk2⟩

/-- C2 counterexample: with samples `[1, 2]`, values `[10, 20]` and query
`0`, the lookup returns `10` even though no sample is `≤ 0`, so the
returned value is not paired with any largest sample not exceeding the
query — below the first sample the claimed characterisation fails. -/
theorem linear_interpolate_below_first_counterexample :
    linear_interpolate [1, 2] [10, 20] 0 = some 10 ∧
    List.Sorted (· < ·) [(1 : ℚ), 2] ∧
    ∀ x ∈ [(1 : ℚ), 2], ¬x ≤ 0 := by
  refine ⟨by decide, by decide, by decide⟩

/-- C2 amended: on a nonempty strictly ascending sample list with paired
values of the same length, the lookup returns the value paired with the
largest sample not exceeding the query whenever the query is at least the
first sample; when the query is below the first sample it returns the
value paired with the first (smallest) sample instead. -/
theorem linear_interpolate_lookup (xs ys : List ℚ) (q : ℚ)
    (hs : List.Sorted (· < ·) xs) (hne : xs ≠ [])
    (hlen : ys.length = xs.length) :
    (xs.getD 0 0 ≤ q →
      ∃ i, i < xs.length ∧
        linear_interpolate xs ys q = some (ys.getD i 0) ∧
        xs.getD i 0 ≤ q ∧
        ∀ j, j < xs.length → xs.getD j 0 ≤ q → j ≤ i) ∧
    (q < xs.getD 0 0 → linear_interpolate xs ys q = some (ys.getD 0 0)) := by
  have hpos : 0 < xs.length := List.length_pos.mpr hne
  have hspec := bsGo_sorted_spec xs q hs xs.length 0 xs.length (by omega)
    (by omega) (le_refl _) (fun k hk => absurd hk (Nat.not_lt_zero k))
    (fun k hk1 hk2 => absurd hk2 (by omega))
  simp only [linear_interpolate]
  cases hbs : binary_search_by xs q with
  | ok i =>
    obtain ⟨hilen, hieq⟩ := hspec.1 i hbs
    have hiy : i < ys.length := by omega
    constructor
    · intro _
      refine ⟨i, hilen, ?_, le_of_eq hieq, ?_⟩
      · show ys[i]? = some (ys.getD i 0)
        rw [List.getElem?_eq_getElem hiy, List.getD_eq_getElem ys 0 hiy]
      · intro j hj hjq
        by_contra hcon
        push_neg at hcon
        have hlt := sorted_getD_lt xs hs hcon hj
        rw [hieq] at hlt
        exact absurd hjq (not_le.mpr hlt)
    · intro hq
      exfalso
      have h0i : xs.getD 0 0 ≤ xs.getD i 0 := by
        rcases Nat.eq_or_lt_of_le (Nat.zero_le i) with h | h
        · rw [← h]
        · exact le_of_lt (sorted_getD_lt xs hs h hilen)
      rw [hieq] at h0i
      exact absurd (lt_of_lt_of_le hq h0i) (lt_irrefl q)
  | error l =>
    obtain ⟨hllen, hbelow, habove⟩ := hspec.2 l hbs
    rcases l with _ | m
    · constructor
      · intro hq
        exact absurd hq (not_le.mpr (habove 0 (Nat.zero_le _) hpos))
      · intro _
        have h0 : 0 < ys.length := by omega
        show ys[0]? = some (ys.getD 0 0)
        rw [List.getElem?_eq_getElem h0, List.getD_eq_getElem ys 0 h0]
    · have hm : m < xs.length := by omega
      have hmy : m < ys.length := by omega
      constructor
      · intro _
        refine ⟨m, hm, ?_, le_of_lt (hbelow m (Nat.lt_succ_self m)), ?_⟩
        · show ys[m + 1 - 1]? = some (ys.getD m 0)
          simp only [Nat.add_sub_cancel]
          rw [List.getElem?_eq_getElem hmy, List.getD_eq_getElem ys 0 hmy]
        · intro j hj hjq
          by_contra hcon
          push_neg at hcon
          exact absurd hjq (not_le.mpr (habove j hcon hj))
      · intro hq
        exfalso
        have h0 := hbelow 0 (Nat.succ_pos m)
        exact absurd (lt_trans hq h0) (lt_irrefl q)

/-- C2 amended, witness: querying `[1, 2]` and `[10, 20]` at `1` returns
`10`, the value paired with the largest sample not exceeding the query. -/
theorem linear_interpolate_lookup_witness :
    List.Sorted (· < ·) [(1 : ℚ), 2] ∧
    ([(1 : ℚ), 2]).getD 0 0 ≤ 1 ∧
    ∃ i, i < ([(1 : ℚ), 2]).length ∧
      linear_interpolate [1, 2] [10, 20] 1 =
        some (([(10 : ℚ), 20]).getD i 0) ∧
      ([(1 : ℚ), 2]).getD i 0 ≤ 1 ∧
      ∀ j, j < ([(1 : ℚ), 2]).length → ([(1 : ℚ), 2]).getD j 0 ≤ 1 → j ≤ i := by
  have hs : List.Sorted (· < ·) [(1 : ℚ), 2] := by decide
  have hq : ([(1 : ℚ), 2]).getD 0 0 ≤ 1 := by decide
  exact ⟨hs, hq,
    (linear_interpolate_lookup [1, 2] [10, 20] 1 hs (by decide) (by decide)).1 hq⟩

/-- Norm of a vector on the first axis. -/
theorem norm2_x (a : ℝ) : norm2 (a, 0) = |a| := by
  simp only [norm2, mul_zero, add_zero, Real.sqrt_mul_self_eq_abs]

/-- Norm of a vector on the second axis. -/
theorem norm2_y (b : ℝ) : norm2 (0, b) = |b| := by
  simp only [norm2, zero_mul, zero_add, Real.sqrt_mul_self_eq_abs]

/-- C7: whenever the start velocity has norm strictly below 100,
`SimpleArc::new` fails with `VelocityTooLow`, whatever the other
parameters are. -/
theorem simpleArc_velocity_too_low (center : ℝ × ℝ) (radius : ℝ)
    (start_loc : ℝ × ℝ) (start_vel : ℝ × ℝ) (start_boost : ℝ)
    (end_loc : ℝ × ℝ) (hv : norm2 start_vel < 100) :
    SimpleArc.new center radius start_loc start_vel start_boost end_loc =
      .error .VelocityTooLow := by
  simp only [SimpleArc.new]
  rw [if_pos hv]

/-- C7 witness: a zero start velocity always yields `VelocityTooLow`. -/
theorem simpleArc_velocity_too_low_witness :
    norm2 ((0 : ℝ), (0 : ℝ)) < 100 ∧
    SimpleArc.new ((0 : ℝ), (0 : ℝ)) 100 (100, 0) (0, 0) 0 (200, 0) =
      .error .VelocityTooLow := by
  have hv : norm2 ((0 : ℝ), (0 : ℝ)) < 100 := by
    rw [norm2_x]; norm_num
  exact ⟨hv, simpleArc_velocity_too_low _ _ _ _ _ _ hv⟩

/-- C6 counterexample: with radii 100 and 200 (difference 100 ≥ 1) but a
zero start velocity, construction fails with `VelocityTooLow`, not
`WrongGeometry` — the velocity check runs first, so the claim does not
hold for start velocities of every norm. -/
theorem simpleArc_wrong_geometry_counterexample :
    |norm2 (((100 : ℝ), (0 : ℝ)) - (0, 0)) -
      norm2 (((200 : ℝ), (0 : ℝ)) - (0, 0))| ≥ 1 ∧
    SimpleArc.new ((0 : ℝ), (0 : ℝ)) 100 (100, 0) (0, 0) 0 (200, 0) =
      .error .VelocityTooLow ∧
    (Except.error SimpleArcError.VelocityTooLow :
      Except SimpleArcError SimpleArc) ≠ .error .WrongGeometry := by
  refine ⟨?_, ?_, ?_⟩
  · rw [show ((100 : ℝ), (0 : ℝ)) - (0, 0) = ((100 : ℝ), (0 : ℝ)) by
        rw [Prod.mk_sub_mk]; norm_num,
      show ((200 : ℝ), (0 : ℝ)) - (0, 0) = ((200 : ℝ), (0 : ℝ)) by
        rw [Prod.mk_sub_mk]; norm_num,
      norm2_x, norm2_x]
    rw [abs_of_nonneg (by norm_num : (100 : ℝ) ≥ 0),
      abs_of_nonneg (by norm_num : (200 : ℝ) ≥ 0)]
    rw [show (100 : ℝ) - 200 = -100 by norm_num, abs_neg,
      abs_of_nonneg (by norm_num : (100 : ℝ) ≥ 0)]
    norm_num
  · have hv : norm2 ((0 : ℝ), (0 : ℝ)) < 100 := by rw [norm2_x]; norm_num
    simp only [SimpleArc.new]
    rw [if_pos hv]
  · intro h
    exact SimpleArcError.noConfusion (Except.error.inj h)

/-- C6 amended: with the start velocity fast enough to pass the first
check (norm at least 100), radii differing by at least 1 always yield
`WrongGeometry`. -/
theorem simpleArc_wrong_geometry (center : ℝ × ℝ) (radius : ℝ)
    (start_loc : ℝ × ℝ) (start_vel : ℝ × ℝ) (start_boost : ℝ)
    (end_loc : ℝ × ℝ) (hv : ¬norm2 start_vel < 100)
    (hr : |norm2 (start_loc - center) - norm2 (end_loc - center)| ≥ 1) :
    SimpleArc.new center radius start_loc start_vel start_boost end_loc =
      .error .WrongGeometry := by
  simp only [SimpleArc.new]
  rw [if_neg hv, if_pos hr]

/-- C6 amended, witness: start velocity of norm exactly 100 with radii
100 and 200 yields `WrongGeometry`. -/
theorem simpleArc_wrong_geometry_witness :
    ¬norm2 ((0 : ℝ), (100 : ℝ)) < 100 ∧
    |norm2 (((100 : ℝ), (0 : ℝ)) - ((0 : ℝ), (0 : ℝ))) -
      norm2 (((200 : ℝ), (0 : ℝ)) - ((0 : ℝ), (0 : ℝ)))| ≥ 1 ∧
    SimpleArc.new ((0 : ℝ), (0 : ℝ)) 100 (100, 0) (0, 100) 0 (200, 0) =
      .error .WrongGeometry := by
  have hv : ¬norm2 ((0 : ℝ), (100 : ℝ)) < 100 := by
    rw [norm2_y, abs_of_nonneg (by norm_num : (100 : ℝ) ≥ 0)]
    norm_num
  have hr : |norm2 (((100 : ℝ), (0 : ℝ)) - ((0 : ℝ), (0 : ℝ))) -
      norm2 (((200 : ℝ), (0 : ℝ)) - ((0 : ℝ), (0 : ℝ)))| ≥ 1 := by
    rw [show ((100 : ℝ), (0 : ℝ)) - ((0 : ℝ), (0 : ℝ)) = ((100 : ℝ), (0 : ℝ)) by
        rw [Prod.mk_sub_mk]; norm_num,
      show ((200 : ℝ), (0 : ℝ)) - ((0 : ℝ), (0 : ℝ)) = ((200 : ℝ), (0 : ℝ)) by
        rw [Prod.mk_sub_mk]; norm_num,
      norm2_x, norm2_x]
    rw [abs_of_nonneg (by norm_num : (100 : ℝ) ≥ 0),
      abs_of_nonneg (by norm_num : (200 : ℝ) ≥ 0)]
    rw [show (100 : ℝ) - 200 = -100 by norm_num, abs_neg,
      abs_of_nonneg (by norm_num : (100 : ℝ) ≥ 0)]
    norm_num
  exact ⟨hv, hr, simpleArc_wrong_geometry _ _ _ _ _ _ hv hr⟩

open Real in
/-- Case analysis of the full-turn adjustment applied to the raw sweep:
with the raw sweep in `(-π, π]` and nonzero, the adjusted sweep is
strictly positive and below a full turn when the direction flag is set,
strictly negative and above a negative full turn otherwise, and always
differs from the raw sweep by a multiple of a full turn. -/
theorem sweep_adjust_cases (β s0 r : ℝ) (h1 : -π < s0) (h2 : s0 ≤ π)
    (h3 : s0 ≠ 0)
    (hr : r = if β < 0 ∧ s0 < 0 then s0 + 2 * π
      else if ¬β < 0 ∧ s0 ≥ 0 then s0 - 2 * π else s0) :
    (β < 0 → 0 < r ∧ r < 2 * π) ∧
    (¬β < 0 → -(2 * π) < r ∧ r < 0) ∧
    (r = s0 ∨ r = s0 + 2 * π ∨ r = s0 - 2 * π) := by
  have hπ := Real.pi_pos
  subst hr
  split_ifs with c1 c2
  · exact ⟨fun _ => ⟨by linarith [c1.2], by linarith [c1.2]⟩,
      fun hn => absurd c1.1 hn, Or.inr (Or.inl rfl)⟩
  · have hs0pos : 0 < s0 := lt_of_le_of_ne c2.2 (Ne.symm h3)
    exact ⟨fun hβ2 => absurd hβ2 c2.1,
      fun _ => ⟨by linarith, by linarith⟩, Or.inr (Or.inr rfl)⟩
  · by_cases hβ : β < 0
    · have hs0nn : ¬s0 < 0 := fun hs => c1 ⟨hβ, hs⟩
      have hs0pos : 0 < s0 := lt_of_le_of_ne (not_lt.mp hs0nn) (Ne.symm h3)
      exact ⟨fun _ => ⟨hs0pos, by linarith⟩,
        fun hn => absurd hβ hn, Or.inl rfl⟩
    · have hs0neg : s0 < 0 := by
        by_contra hs
        exact c2 ⟨hβ, not_lt.mp hs⟩
      exact ⟨fun hc => absurd hc hβ,
        fun _ => ⟨by linarith, hs0neg⟩, Or.inl rfl⟩

open Real in
/-- Uniqueness of the adjusted sweep: any value congruent to the raw
sweep modulo a full turn, of nonzero magnitude below a full turn and of
the same sign, is the adjusted sweep. -/
theorem sweep_unique_congruent (s0 r x : ℝ)
    (hr : r = s0 ∨ r = s0 + 2 * π ∨ r = s0 - 2 * π)
    (hx : ∃ k : ℤ, x = s0 + 2 * π * k)
    (hr1 : 0 < |r|) (hr2 : |r| < 2 * π)
    (hx1 : 0 < |x|) (hx2 : |x| < 2 * π)
    (hsign : 0 < x ↔ 0 < r) : x = r := by
  have hπ := Real.pi_pos
  obtain ⟨k, rfl⟩ := hx
  obtain ⟨kp, hkp⟩ : ∃ kp : ℤ, r = s0 + 2 * π * kp := by
    rcases hr with h | h | h
    · exact ⟨0, by rw [h]; push_cast; ring⟩
    · exact ⟨1, by rw [h]; push_cast; ring⟩
    · exact ⟨-1, by rw [h]; push_cast; ring⟩
  have hrne : r ≠ 0 := by
    intro h0; rw [h0] at hr1; simp at hr1
  have hxne : s0 + 2 * π * k ≠ 0 := by
    intro h0; rw [h0] at hx1; simp at hx1
  have habs : |s0 + 2 * π * k - r| < 2 * π := by
    rw [abs_lt] at hr2 hx2 ⊢
    by_cases hxp : 0 < s0 + 2 * π * k
    · have hrp : 0 < r := hsign.mp hxp
      constructor <;> linarith [hx2.1, hx2.2, hr2.1, hr2.2]
    · have hxn : s0 + 2 * π * k < 0 := lt_of_le_of_ne (not_lt.mp hxp) hxne
      have hrn : r < 0 := by
        have hnr : ¬0 < r := fun hc => hxp (hsign.mpr hc)
        exact lt_of_le_of_ne (not_lt.mp hnr) hrne
      constructor <;> linarith [hx2.1, hx2.2, hr2.1, hr2.2]
  have hdiff : s0 + 2 * π * k - r = 2 * π * ((k : ℝ) - (kp : ℝ)) := by
    rw [hkp]; ring
  rw [hdiff] at habs
  have h2π : (0 : ℝ) < 2 * π := by linarith
  rw [abs_mul, abs_of_pos h2π] at habs
  have hlt1 : |(k : ℝ) - (kp : ℝ)| < 1 := by
    by_contra hcon
    push_neg at hcon
    nlinarith [habs]
  have hkk : k = kp := by
    have hcast : |(k - kp : ℤ)| < 1 := by
      rw [show ((k : ℝ) - (kp : ℝ)) = ((k - kp : ℤ) : ℝ) by push_cast; ring,
        ← Int.cast_abs] at hlt1
      exact_mod_cast hlt1
    have h0 : k - kp = 0 := Int.abs_lt_one_iff.mp hcast
    omega
  rw [hkp, hkk]

/-- `toC` commutes with subtraction. -/
theorem toC_sub (a b : ℝ × ℝ) : toC (a - b) = toC a - toC b := rfl

open Real in
/-- The sweep stored by a successful `SimpleArc::new` is the raw
start-to-end angle around the center, adjusted by a full turn according
to the direction flag derived from the start velocity. -/
theorem simpleArc_new_ok_sweep (center : ℝ × ℝ) (radius : ℝ)
    (start_loc : ℝ × ℝ) (start_vel : ℝ × ℝ) (start_boost : ℝ)
    (end_loc : ℝ × ℝ) (arc : SimpleArc)
    (hok : SimpleArc.new center radius start_loc start_vel start_boost
      end_loc = .ok arc) :
    arc.sweep =
      if angle_to start_vel (start_loc - center) < 0 ∧
          angle_to (start_loc - center) (end_loc - center) < 0 then
        angle_to (start_loc - center) (end_loc - center) + 2 * π
      else if ¬angle_to start_vel (start_loc - center) < 0 ∧
          angle_to (start_loc - center) (end_loc - center) ≥ 0 then
        angle_to (start_loc - center) (end_loc - center) - 2 * π
      else angle_to (start_loc - center) (end_loc - center) := by
  simp only [SimpleArc.new] at hok
  split_ifs at hok with hv hr c1 c2
  · simp only [Except.ok.injEq] at hok
    subst hok
    rw [if_pos c1]
  · simp only [Except.ok.injEq] at hok
    subst hok
    rw [if_neg c1, if_pos c2]
  · simp only [Except.ok.injEq] at hok
    subst hok
    rw [if_neg c1, if_neg c2]

open Real in
/-- C4 amended: for every successful construction in which the start
velocity is not radially aligned (the angle to the start-to-center
vector is neither 0 nor π) and the end point does not sit at the start
point's angle around the center (raw sweep nonzero), the stored sweep has
the sign of the angle from the start velocity to the start-to-center
vector, its magnitude lies strictly between 0 and a full turn, it reaches
the end angle (congruent to the raw start-to-end angle modulo a full
turn), and it is the unique such value of that sign and magnitude
range. -/
theorem simpleArc_sweep_sign (center : ℝ × ℝ) (radius : ℝ)
    (start_loc : ℝ × ℝ) (start_vel : ℝ × ℝ) (start_boost : ℝ)
    (end_loc : ℝ × ℝ) (arc : SimpleArc)
    (hok : SimpleArc.new center radius start_loc start_vel start_boost
      end_loc = .ok arc)
    (hα0 : angle_to start_vel (center - start_loc) ≠ 0)
    (hαπ : angle_to start_vel (center - start_loc) ≠ π)
    (hs0 : angle_to (start_loc - center) (end_loc - center) ≠ 0) :
    (0 < arc.sweep ↔ 0 < angle_to start_vel (center - start_loc)) ∧
    (arc.sweep < 0 ↔ angle_to start_vel (center - start_loc) < 0) ∧
    0 < |arc.sweep| ∧ |arc.sweep| < 2 * π ∧
    (∃ k : ℤ, arc.sweep =
      angle_to (start_loc - center) (end_loc - center) + 2 * π * k) ∧
    (∀ x : ℝ,
      (∃ k : ℤ,
        x = angle_to (start_loc - center) (end_loc - center) + 2 * π * k) →
      0 < |x| → |x| < 2 * π → (0 < x ↔ 0 < arc.sweep) → x = arc.sweep) := by
  have hπ := Real.pi_pos
  have hsw := simpleArc_new_ok_sweep center radius start_loc start_vel
    start_boost end_loc arc hok
  have h1 : -π < angle_to (start_loc - center) (end_loc - center) :=
    Complex.neg_pi_lt_arg _
  have h2 : angle_to (start_loc - center) (end_loc - center) ≤ π :=
    Complex.arg_le_pi _
  have hadj := sweep_adjust_cases (angle_to start_vel (start_loc - center))
    (angle_to (start_loc - center) (end_loc - center)) arc.sweep h1 h2 hs0 hsw
  set w : ℂ := toC (center - start_loc) * (starRingEnd ℂ) (toC start_vel)
    with hw
  have hα_eq : angle_to start_vel (center - start_loc) = Complex.arg w := rfl
  have hβ_eq : angle_to start_vel (start_loc - center) =
      Complex.arg (-w) := by
    simp only [angle_to, hw]
    congr 1
    rw [show toC (start_loc - center) = -toC (center - start_loc) by
      rw [toC_sub, toC_sub]; ring]
    ring
  have him : w.im ≠ 0 := by
    intro h0
    rcases le_or_lt 0 w.re with hre | hre
    · exact hα0 (by rw [hα_eq]; exact Complex.arg_eq_zero_iff.mpr ⟨hre, h0⟩)
    · exact hαπ (by rw [hα_eq]; exact Complex.arg_eq_pi_iff.mpr ⟨hre, h0⟩)
  have hcong : ∃ k : ℤ, arc.sweep =
      angle_to (start_loc - center) (end_loc - center) + 2 * π * k := by
    rcases hadj.2.2 with h | h | h
    · exact ⟨0, by rw [h]; push_cast; ring⟩
    · exact ⟨1, by rw [h]; push_cast; ring⟩
    · exact ⟨-1, by rw [h]; push_cast; ring⟩
  rcases lt_or_gt_of_ne him with him_neg | him_pos
  · -- w.im < 0 : α < 0, direction flag unset, sweep < 0
    have hαneg : angle_to start_vel (center - start_loc) < 0 := by
      rw [hα_eq]; exact Complex.arg_neg_iff.mpr him_neg
    have hβnn : ¬angle_to start_vel (start_loc - center) < 0 := by
      rw [hβ_eq]
      apply not_lt.mpr
      apply Complex.arg_nonneg_iff.mpr
      simp only [Complex.neg_im]
      linarith
    obtain ⟨hlo, hhi⟩ := hadj.2.1 hβnn
    have habs_pos : 0 < |arc.sweep| := abs_pos.mpr (ne_of_lt hhi)
    have habs_lt : |arc.sweep| < 2 * π := abs_lt.mpr ⟨by linarith, by linarith⟩
    refine ⟨iff_of_false (not_lt.mpr (le_of_lt hhi))
        (not_lt.mpr (le_of_lt hαneg)),
      iff_of_true hhi hαneg, habs_pos, habs_lt, hcong, ?_⟩
    intro x hx hx1 hx2 hsgn
    exact sweep_unique_congruent _ _ _ hadj.2.2 hx habs_pos habs_lt hx1 hx2 hsgn
  · -- 0 < w.im : α > 0, direction flag set, sweep > 0
    have hαpos : 0 < angle_to start_vel (center - start_loc) := by
      have hnn : 0 ≤ angle_to start_vel (center - start_loc) := by
        rw [hα_eq]; exact Complex.arg_nonneg_iff.mpr (le_of_lt him_pos)
      exact lt_of_le_of_ne hnn (Ne.symm hα0)
    have hβneg : angle_to start_vel (start_loc - center) < 0 := by
      rw [hβ_eq]
      apply Complex.arg_neg_iff.mpr
      simp only [Complex.neg_im]
      linarith
    obtain ⟨hlo, hhi⟩ := hadj.1 hβneg
    have habs_pos : 0 < |arc.sweep| := abs_pos.mpr (ne_of_gt hlo)
    have habs_lt : |arc.sweep| < 2 * π := abs_lt.mpr ⟨by linarith, by linarith⟩
    refine ⟨iff_of_true hlo hαpos,
      iff_of_false (not_lt.mpr (le_of_lt hlo)) (not_lt.mpr (le_of_lt hαpos)),
      habs_pos, habs_lt, hcong, ?_⟩
    intro x hx hx1 hx2 hsgn
    exact sweep_unique_congruent _ _ _ hadj.2.2 hx habs_pos habs_lt hx1 hx2 hsgn

/-- `angle_to` written out on coordinates: the argument of
`(dot, cross)`. -/
theorem angle_to_eq_arg (a b : ℝ × ℝ) :
    angle_to a b =
      Complex.arg ⟨a.1 * b.1 + a.2 * b.2, a.1 * b.2 - a.2 * b.1⟩ := by
  simp only [angle_to]
  congr 1
  apply Complex.ext
  · simp only [Complex.mul_re, Complex.conj_re, Complex.conj_im, toC]
    ring
  · simp only [Complex.mul_im, Complex.conj_re, Complex.conj_im, toC]
    ring

open Real in
/-- Argument of a positive real. -/
theorem arg_mk_pos_re (r : ℝ) (hr : 0 < r) : Complex.arg ⟨r, 0⟩ = 0 := by
  rw [show (⟨r, 0⟩ : ℂ) = (r : ℂ) from by apply Complex.ext <;> simp]
  exact Complex.arg_ofReal_of_nonneg (le_of_lt hr)

open Real in
/-- Argument of a positive multiple of `I`. -/
theorem arg_mk_pos_im (r : ℝ) (hr : 0 < r) : Complex.arg ⟨0, r⟩ = π / 2 := by
  rw [show (⟨0, r⟩ : ℂ) = (r : ℂ) * Complex.I from by
    apply Complex.ext <;> simp]
  rw [Complex.arg_real_mul _ hr, Complex.arg_I]

open Real in
/-- Argument of a negative multiple of `I`. -/
theorem arg_mk_neg_im (r : ℝ) (hr : 0 < r) :
    Complex.arg ⟨0, -r⟩ = -(π / 2) := by
  rw [show (⟨0, -r⟩ : ℂ) = (r : ℂ) * (-Complex.I) from by
    apply Complex.ext <;> simp]
  rw [Complex.arg_real_mul _ hr, Complex.arg_neg_I]

open Real in
/-- Angle from the positive x-axis direction to the positive y-axis
direction: a quarter turn. -/
theorem angle_to_xaxis_to_yaxis (p q : ℝ) (hp : 0 < p) (hq : 0 < q) :
    angle_to (p, 0) (0, q) = π / 2 := by
  rw [angle_to_eq_arg]
  show Complex.arg ⟨p * 0 + 0 * q, p * q - 0 * 0⟩ = π / 2
  rw [show (⟨p * 0 + 0 * q, p * q - 0 * 0⟩ : ℂ) = ⟨0, p * q⟩ from by
    apply Complex.ext <;> simp]
  exact arg_mk_pos_im _ (mul_pos hp hq)

open Real in
/-- Angle from the positive y-axis direction to the positive x-axis
direction: a negative quarter turn. -/
theorem angle_to_yaxis_to_xaxis (p q : ℝ) (hp : 0 < p) (hq : 0 < q) :
    angle_to (0, p) (q, 0) = -(π / 2) := by
  rw [angle_to_eq_arg]
  show Complex.arg ⟨0 * q + p * 0, 0 * 0 - p * q⟩ = -(π / 2)
  rw [show (⟨0 * q + p * 0, 0 * 0 - p * q⟩ : ℂ) = ⟨0, -(p * q)⟩ from by
    apply Complex.ext <;> simp]
  exact arg_mk_neg_im _ (mul_pos hp hq)

open Real in
/-- Angle from the positive y-axis direction to the negative x-axis
direction: a quarter turn. -/
theorem angle_to_yaxis_to_negx (p q : ℝ) (hp : 0 < p) (hq : 0 < q) :
    angle_to (0, p) (-q, 0) = π / 2 := by
  rw [angle_to_eq_arg]
  show Complex.arg ⟨0 * -q + p * 0, 0 * 0 - p * -q⟩ = π / 2
  rw [show (⟨0 * -q + p * 0, 0 * 0 - p * -q⟩ : ℂ) = ⟨0, p * q⟩ from by
    apply Complex.ext <;> simp]
  exact arg_mk_pos_im _ (mul_pos hp hq)

open Real in
/-- Angle between two positive x-axis directions: zero. -/
theorem angle_to_xaxis_to_xaxis (p q : ℝ) (hp : 0 < p) (hq : 0 < q) :
    angle_to (p, 0) (q, 0) = 0 := by
  rw [angle_to_eq_arg]
  show Complex.arg ⟨p * q + 0 * 0, p * 0 - 0 * q⟩ = 0
  rw [show (⟨p * q + 0 * 0, p * 0 - 0 * q⟩ : ℂ) = ⟨p * q, 0⟩ from by
    apply Complex.ext <;> simp]
  exact arg_mk_pos_re _ (mul_pos hp hq)

open Real in
/-- C4 counterexample: a successful construction whose end point sits at
the start point's angle (here start = end) stores a sweep of exactly 0,
while the angle from the start velocity to the start-to-center vector is
`π/2 > 0` — so the stored sweep's sign does not equal that angle's sign,
and `|sweep|` does not lie in the open interval `(0°, 360°)`. -/
theorem simpleArc_sweep_sign_counterexample :
    SimpleArc.new ((0 : ℝ), (0 : ℝ)) 100 ((100 : ℝ), (0 : ℝ))
      ((0 : ℝ), (100 : ℝ)) 0 ((100 : ℝ), (0 : ℝ)) =
      .ok { center := ((0 : ℝ), (0 : ℝ)), radius := 100,
            start_loc := ((100 : ℝ), (0 : ℝ)),
            start_vel := ((0 : ℝ), (100 : ℝ)),
            start_boost := 0, sweep := 0 } ∧
    0 < angle_to ((0 : ℝ), (100 : ℝ))
      (((0 : ℝ), (0 : ℝ)) - ((100 : ℝ), (0 : ℝ))) ∧
    ¬0 < |(0 : ℝ)| := by
  have hπ := Real.pi_pos
  have hsub1 : ((100 : ℝ), (0 : ℝ)) - ((0 : ℝ), (0 : ℝ)) =
      ((100 : ℝ), (0 : ℝ)) := by
    rw [Prod.mk_sub_mk]; norm_num
  have hsub2 : ((0 : ℝ), (0 : ℝ)) - ((100 : ℝ), (0 : ℝ)) =
      ((-100 : ℝ), (0 : ℝ)) := by
    rw [Prod.mk_sub_mk]; norm_num
  have hβ : angle_to ((0 : ℝ), (100 : ℝ))
      (((100 : ℝ), (0 : ℝ)) - ((0 : ℝ), (0 : ℝ))) = -(π / 2) := by
    rw [hsub1]
    exact angle_to_yaxis_to_xaxis 100 100 (by norm_num) (by norm_num)
  have hs0 : angle_to (((100 : ℝ), (0 : ℝ)) - ((0 : ℝ), (0 : ℝ)))
      (((100 : ℝ), (0 : ℝ)) - ((0 : ℝ), (0 : ℝ))) = 0 := by
    rw [hsub1]
    exact angle_to_xaxis_to_xaxis 100 100 (by norm_num) (by norm_num)
  have hα : angle_to ((0 : ℝ), (100 : ℝ))
      (((0 : ℝ), (0 : ℝ)) - ((100 : ℝ), (0 : ℝ))) = π / 2 := by
    rw [hsub2]
    exact angle_to_yaxis_to_negx 100 100 (by norm_num) (by norm_num)
  have hv : ¬norm2 ((0 : ℝ), (100 : ℝ)) < 100 := by
    rw [norm2_y, abs_of_nonneg (by norm_num : (0 : ℝ) ≤ 100)]
    norm_num
  have hr : ¬|norm2 (((100 : ℝ), (0 : ℝ)) - ((0 : ℝ), (0 : ℝ))) -
      norm2 (((100 : ℝ), (0 : ℝ)) - ((0 : ℝ), (0 : ℝ)))| ≥ 1 := by
    rw [sub_self, abs_zero]
    norm_num
  refine ⟨?_, by rw [hα]; linarith, by simp⟩
  simp only [SimpleArc.new]
  rw [if_neg hv, if_neg hr, hβ, hs0]
  rw [if_neg (fun h => lt_irrefl (0 : ℝ) h.2),
    if_neg (fun h => h.1 (by linarith))]

open Real in
/-- C4 amended, witness: the quarter-circle demo construction (radius
1000, entry along the positive y direction, ending a quarter turn
counterclockwise) succeeds with sweep `π/2`, whose sign matches the
angle to the center and whose magnitude lies in `(0, 2π)`. -/
theorem simpleArc_sweep_sign_witness :
    ∃ arc, SimpleArc.new ((0 : ℝ), (0 : ℝ)) 1000 ((1000 : ℝ), (0 : ℝ))
        ((0 : ℝ), (100 : ℝ)) 0 ((0 : ℝ), (1000 : ℝ)) = .ok arc ∧
      (0 < arc.sweep ↔ 0 < angle_to ((0 : ℝ), (100 : ℝ))
        (((0 : ℝ), (0 : ℝ)) - ((1000 : ℝ), (0 : ℝ)))) ∧
      0 < |arc.sweep| ∧ |arc.sweep| < 2 * π := by
  have hπ := Real.pi_pos
  have hsub1 : ((1000 : ℝ), (0 : ℝ)) - ((0 : ℝ), (0 : ℝ)) =
      ((1000 : ℝ), (0 : ℝ)) := by
    rw [Prod.mk_sub_mk]; norm_num
  have hsub2 : ((0 : ℝ), (0 : ℝ)) - ((1000 : ℝ), (0 : ℝ)) =
      ((-1000 : ℝ), (0 : ℝ)) := by
    rw [Prod.mk_sub_mk]; norm_num
  have hsub3 : ((0 : ℝ), (1000 : ℝ)) - ((0 : ℝ), (0 : ℝ)) =
      ((0 : ℝ), (1000 : ℝ)) := by
    rw [Prod.mk_sub_mk]; norm_num
  have hβ : angle_to ((0 : ℝ), (100 : ℝ))
      (((1000 : ℝ), (0 : ℝ)) - ((0 : ℝ), (0 : ℝ))) = -(π / 2) := by
    rw [hsub1]
    exact angle_to_yaxis_to_xaxis 100 1000 (by norm_num) (by norm_num)
  have hs0 : angle_to (((1000 : ℝ), (0 : ℝ)) - ((0 : ℝ), (0 : ℝ)))
      (((0 : ℝ), (1000 : ℝ)) - ((0 : ℝ), (0 : ℝ))) = π / 2 := by
    rw [hsub1, hsub3]
    exact angle_to_xaxis_to_yaxis 1000 1000 (by norm_num) (by norm_num)
  have hα : angle_to ((0 : ℝ), (100 : ℝ))
      (((0 : ℝ), (0 : ℝ)) - ((1000 : ℝ), (0 : ℝ))) = π / 2 := by
    rw [hsub2]
    exact angle_to_yaxis_to_negx 100 1000 (by norm_num) (by norm_num)
  have hv : ¬norm2 ((0 : ℝ), (100 : ℝ)) < 100 := by
    rw [norm2_y, abs_of_nonneg (by norm_num : (0 : ℝ) ≤ 100)]
    norm_num
  have hrn : ¬|norm2 (((1000 : ℝ), (0 : ℝ)) - ((0 : ℝ), (0 : ℝ))) -
      norm2 (((0 : ℝ), (1000 : ℝ)) - ((0 : ℝ), (0 : ℝ)))| ≥ 1 := by
    rw [hsub1, hsub3, norm2_x, norm2_y,
      abs_of_nonneg (by norm_num : (0 : ℝ) ≤ 1000), sub_self, abs_zero]
    norm_num
  have hok : SimpleArc.new ((0 : ℝ), (0 : ℝ)) 1000 ((1000 : ℝ), (0 : ℝ))
      ((0 : ℝ), (100 : ℝ)) 0 ((0 : ℝ), (1000 : ℝ)) =
      .ok { center := ((0 : ℝ), (0 : ℝ)), radius := 1000,
            start_loc := ((1000 : ℝ), (0 : ℝ)),
            start_vel := ((0 : ℝ), (100 : ℝ)),
            start_boost := 0, sweep := π / 2 } := by
    simp only [SimpleArc.new]
    rw [if_neg hv, if_neg hrn, hβ, hs0]
    rw [if_neg (fun h => absurd h.2 (by intro h2; linarith)),
      if_neg (fun h => h.1 (by linarith))]
  have h := simpleArc_sweep_sign ((0 : ℝ), (0 : ℝ)) 1000
    ((1000 : ℝ), (0 : ℝ)) ((0 : ℝ), (100 : ℝ)) 0 ((0 : ℝ), (1000 : ℝ)) _
    hok (by rw [hα]; intro h0; linarith) (by rw [hα]; intro h0; linarith)
    (by rw [hs0]; intro h0; linarith)
  exact ⟨_, hok, h.1, h.2.2.1, h.2.2.2.1⟩
